import Mathlib

/-! Verification of the real-time audio pipeline of the Quang Tri virtual
tour guide (the Chatbot component and its api service).  JavaScript strings
are embedded as lists of characters, byte buffers as lists of natural
numbers below 256, and audio-clock times and samples as rational numbers:
every float operation the modelled code performs (scaling a float32 sample
by 32767 or 32768, truncating to an integer, dividing a 16-bit integer by
32768, adding 0.05, accumulating small duration sums) is exact in IEEE
doubles at the magnitudes involved, so the rational embedding is faithful
to the JavaScript arithmetic. -/

namespace QuangTriVR

/-- One 16-bit little-endian PCM word read from two bytes, as the signed
value an Int16Array element holds (decodeAudioData in the Chatbot
component): unsigned values at or above 32768 represent negatives via
two's complement. -/
def int16FromBytes (b0 b1 : ℕ) : ℤ :=
  let u := b0 % 256 + 256 * (b1 % 256)
  if 32768 ≤ u then (u : ℤ) - 65536 else (u : ℤ)

/-- The sequence of Int16Array elements viewed over a byte buffer.  The view
length the code requests is data.length / 2, a fractional number when the
byte count is odd; the JavaScript Int16Array constructor converts it with
ToIndex, which truncates.  A trailing odd byte is therefore silently
ignored and no exception is raised. -/
def int16Words : List ℕ → List ℤ
  | b0 :: b1 :: rest => int16FromBytes b0 b1 :: int16Words rest
  | _ => []

/-- The float32 array decodeAudioData fills: each 16-bit word normalized by
division by 32768. -/
def decodeSamples (data : List ℕ) : List ℚ :=
  (int16Words data).map (fun v : ℤ => (v : ℚ) / 32768)

/-- decodeAudioData: the per-channel sample arrays of the AudioBuffer it
constructs, or none when the construction throws.  Misaligned byte lengths
raise nothing: the Int16Array view length data.length / 2 and the
createBuffer frame count sampleLength / numChannels go through
fractional-truncating conversions (ToIndex and Web IDL unsigned long), so
bytes that do not fill a whole frame are silently dropped.  The one
throwing step is ctx.createBuffer when the truncated frame count is zero
(NotSupportedError), which happens exactly when the input holds fewer than
2 × numChannels bytes; a zero channel count throws likewise and lands in
the same branch here (natural division by zero is zero).  Channel ch of a
constructed buffer holds the samples at indices i * numChannels + ch.  The
code always calls this with numChannels = 1; channel counts within the
range the Web Audio specification guarantees (up to 32) behave as modelled,
larger ones are device-dependent and are not modelled. -/
def decodeAudioData (data : List ℕ) (numChannels : ℕ) : Option (List (List ℚ)) :=
  let float32 := decodeSamples data
  let bufLen := float32.length / numChannels
  if bufLen = 0 then none
  else if numChannels = 1 then
    some [float32.take bufLen]
  else
    some ((List.range numChannels).map (fun ch =>
      (List.range bufLen).map (fun i => float32.getD (i * numChannels + ch) 0)))

/-- Math.max(-1, Math.min(1, s)) from createPcmBlob. -/
def clampSample (x : ℚ) : ℚ := max (-1) (min 1 x)

/-- The Int16Array element createPcmBlob stores for one sample: clamp to
[-1, 1], scale negative values by 32768 and non-negative ones by 32767,
then the float-to-Int16 assignment truncates toward zero (floor for
non-negative values, ceiling for negative ones).  The result always lies in
[-32768, 32767], so the Int16 wrap-around never engages. -/
def pcmEncodeInt16 (x : ℚ) : ℤ :=
  let s := clampSample x
  if s < 0 then ⌈s * 32768⌉ else ⌊s * 32767⌋

/-- Little-endian byte pair of an Int16Array element as read back from the
underlying buffer (two's complement). -/
def int16ToBytesLE (v : ℤ) : List ℕ :=
  let u := (v % 65536).toNat
  [u % 256, u / 256]

/-- The byte content of the blob createPcmBlob returns.  The transport-text
encoding applied on top (the encode and decode byte-to-character pair) is
an exact inverse pair and is not modelled; all claims operate on the byte
level. -/
def createPcmBlob (data : List ℚ) : List ℕ :=
  (data.map pcmEncodeInt16).flatMap int16ToBytesLE

/-- One queued audio segment: its byte payload together with the optional
message index used for the currently-playing highlight (entries produced by
the live session carry none). -/
structure Seg where
  audioData : List ℕ
  messageIndex : Option ℕ
deriving DecidableEq

/-- Duration in seconds of the AudioBuffer a segment decodes to inside
scheduleAudio: the frame count (one sample per two bytes, mono) over the
24000 Hz source sample rate at which the buffer is created. -/
def segDuration (s : Seg) : ℚ := ((s.audioData.length / 2 : ℕ) : ℚ) / 24000

/-- The 50 ms lead-in rule of scheduleAudio: the nextStartTime cursor is
bumped to currentTime + 0.05 exactly when it has fallen behind the device
clock; the (possibly bumped) cursor is the start time passed to
source.start. -/
def bump (cursor t : ℚ) : ℚ := if cursor < t then t + 1/20 else cursor

/-- The mutable refs the playback scheduler owns, plus a trace field:
scheduled records, in call order, every (startTime, segment) pair passed to
source.start, so that ordering and timing claims can be stated about a
run. -/
structure SchedState where
  audioQueue : List Seg
  nextStartTime : ℚ
  currentlyPlayingIndex : Option ℕ
  audioSource : Option Seg
  isAudioPlaying : Bool
  scheduled : List (ℚ × Seg)

/-- One iteration of the while loop in scheduleAudio, after the head item
has been decoded and shifted: rest is the queue after the shift (arrivals
during the decode await are already appended to it), t is the device clock
reading audioContext.currentTime of this iteration.  Updates the playing
marker (only when the panel is open and the item carries a message index),
starts the source at the bumped cursor and advances the cursor by the
decoded duration. -/
def schedStep (isOpen : Bool) (t : ℚ) (item : Seg) (rest : List Seg) (st : SchedState) : SchedState :=
  { audioQueue := rest
    nextStartTime := bump st.nextStartTime t + segDuration item
    currentlyPlayingIndex :=
      if isOpen && item.messageIndex.isSome then item.messageIndex else st.currentlyPlayingIndex
    audioSource := some item
    isAudioPlaying := true
    scheduled := st.scheduled ++ [(bump st.nextStartTime t, item)] }

/-- The tail of a scheduling pass once the per-iteration environment is
exhausted: no further segments arrive and the device clock reading is
taken as 0 (the theorems quantify over environments, so runs where the
clock keeps moving are covered by longer environments). -/
def passTail (isOpen : Bool) : List Seg → SchedState → SchedState
  | [], st => st
  | item :: rest, st => passTail isOpen rest (schedStep isOpen 0 item rest st)

/-- The while loop of scheduleAudio.  The environment lists, per iteration,
the device clock reading and the batch of segments that arrive (are pushed
onto audioQueueRef) during that iteration's decode await; the queue argument
mirrors audioQueueRef and the loop runs until it is empty.  The decode step
can throw only for a payload of fewer than two bytes - a zero-frame buffer
(see decodeAudioData above); the loop is modelled on its normal path, every
decode succeeding. -/
def passLoop (isOpen : Bool) : List (ℚ × List Seg) → List Seg → SchedState → SchedState
  | [], queue, st => passTail isOpen queue st
  | _ :: _, [], st => st
  | (t, batch) :: env, item :: rest, st =>
    passLoop isOpen env (rest ++ batch) (schedStep isOpen t item (rest ++ batch) st)

/-- scheduleAudio: the in-flight guard followed by a full pass.  Returns the
state, the isSchedulingRef value on exit, and whether the finally block's
re-invocation (conditioned on a non-empty queue) fires.  When the guard is
taken the call returns immediately, leaving every ref untouched and the
flag owned by the running pass. -/
def scheduleAudio (isOpen : Bool) (env : List (ℚ × List Seg)) (st : SchedState)
    (isScheduling : Bool) : SchedState × Bool × Bool :=
  if isScheduling then (st, isScheduling, false)
  else
    let st1 := passLoop isOpen env st.audioQueue st
    (st1, false, !st1.audioQueue.isEmpty)

/-- toggleAudio: flips the enabled flag; when audio was enabled (muting) it
stops the in-flight source node if there is one, clears the pending queue
and clears the playing marker.  Returns the new flag value, the new
scheduler state and whether an in-flight source was stopped. -/
def toggleAudio (isAudioEnabled : Bool) (st : SchedState) : Bool × SchedState × Bool :=
  if isAudioEnabled then
    (false, { st with audioQueue := [], currentlyPlayingIndex := none }, st.audioSource.isSome)
  else
    (true, st, false)

/-- The audio branch of handleLiveMessage: a model-turn audio payload is
pushed onto the queue with no message index and scheduleAudio is invoked,
with no check of the audio-enabled flag anywhere on this path. -/
def handleLiveAudioData (isOpen : Bool) (env : List (ℚ × List Seg)) (audioData : List ℕ)
    (st : SchedState) (isScheduling : Bool) : SchedState × Bool × Bool :=
  scheduleAudio isOpen env
    { st with audioQueue := st.audioQueue ++ [Seg.mk audioData none] } isScheduling

/-- One entry of ttsPromiseQueueRef.  resolveOrder records when the
synthesis promise happens to settle relative to the others; result is the
value the awaited promise delivers - none models both a null audioData and
a rejected promise, which the catch block turns into the same no-push
outcome. -/
structure TtsJob where
  resolveOrder : ℕ
  result : Option (List ℕ)
  messageIndex : ℕ
deriving DecidableEq

/-- The segment a job contributes to the playback queue, if any. -/
def ttsResultSeg (j : TtsJob) : Option Seg :=
  j.result.map (fun a => Seg.mk a (some j.messageIndex))

/-- processNextTts: shift the head job, await its promise (head-first,
regardless of the order promises settle in), push a segment when audio came
back, swallow failures, recurse until the job queue is empty.  Returns the
playback queue contents appended by the drain. -/
def processNextTts : List TtsJob → List Seg → List Seg
  | [], audioQueue => audioQueue
  | j :: rest, audioQueue =>
    match j.result with
    | some a => processNextTts rest (audioQueue ++ [Seg.mk a (some j.messageIndex)])
    | none => processNextTts rest audioQueue

/-- The flush test handleSendMessage applies to one streamed chunk:
chunk.text.length > 10 or the chunk matches the regular expression class
of '.', '!' and '?'. -/
def flushTrigger (chunkText : List Char) : Bool :=
  decide (10 < chunkText.length) || chunkText.any (fun c => c == '.' || c == '!' || c == '?')

/-- JavaScript String.prototype.trim on the characters the claims involve:
leading and trailing whitespace removed. -/
def jsTrim (l : List Char) : List Char :=
  ((l.dropWhile Char.isWhitespace).reverse.dropWhile Char.isWhitespace).reverse

/-- processTtsQueue: a blank text (empty after trim) creates no job and
leaves the queue untouched; otherwise a job for exactly this text is
appended, carrying the captured messageIndex.  The job list is viewed as
the submitted (text, messageIndex) pairs, submission order preserved. -/
def processTtsQueue (text : List Char) (messageIndex : ℕ)
    (ttsQueue : List (List Char × ℕ)) : List (List Char × ℕ) :=
  if jsTrim text = [] then ttsQueue else ttsQueue ++ [(text, messageIndex)]

/-- The streamed-chunk loop of handleSendMessage: falsy (empty) chunk texts
are skipped entirely, every other chunk is appended to fullText, and only
when audio is enabled, no live session is active and the chunk passes the
flush test is processTtsQueue called - with the chunk text alone, not with
fullText.  messagesLen is the stale messages.length the closure captured.
The accumulator carries (fullText, tts job queue). -/
def handleStreamChunks (isAudioEnabled isLiveSessionActive : Bool) (messagesLen : ℕ) :
    List (List Char) → List Char × List (List Char × ℕ) → List Char × List (List Char × ℕ)
  | [], acc => acc
  | chunk :: rest, (fullText, q) =>
    if chunk = [] then
      handleStreamChunks isAudioEnabled isLiveSessionActive messagesLen rest (fullText, q)
    else
      handleStreamChunks isAudioEnabled isLiveSessionActive messagesLen rest
        (fullText ++ chunk,
          if isAudioEnabled && !isLiveSessionActive then
            if flushTrigger chunk then processTtsQueue chunk messagesLen q else q
          else q)

/-- The refs and state the live session controller owns.  The three boolean
resource fields record whether the live session handle, the microphone
stream tracks and the input audio context (with its worklet) are currently
held. -/
structure LiveState where
  isLiveSessionActive : Bool
  liveError : Option (List Char)
  errorTimerMs : Option ℕ
  liveSession : Bool
  microphoneStream : Bool
  audioWorklet : Bool
  inputAudioContext : Bool
deriving DecidableEq

/-- The onerror callback passed to ai.live.connect: marks the session
inactive, surfaces the transport-error message and arms a 5000 ms timeout
that clears it.  It touches nothing else: the microphone stream, the
worklet and the input audio context remain held. -/
def onLiveError (st : LiveState) : LiveState :=
  { st with
    isLiveSessionActive := false
    liveError := some ("Lỗi kết nối máy chủ. Vui lòng thử lại sau.".toList)
    errorTimerMs := some 5000 }

/-- The armed timeout firing: setLiveError(null). -/
def clearLiveError (st : LiveState) : LiveState :=
  { st with liveError := none, errorTimerMs := none }

/-- stopLiveSession: closes the session handle, stops the microphone tracks,
tears down the worklet and closes the input audio context, then marks the
session inactive. -/
def stopLiveSession (st : LiveState) : LiveState :=
  { st with
    liveSession := false
    microphoneStream := false
    audioWorklet := false
    inputAudioContext := false
    isLiveSessionActive := false }

/-- Message roles in the chat transcript. -/
inductive Role
  | user
  | model
deriving DecidableEq

/-- One chat message (image payloads are irrelevant to the claims). -/
structure ChatMsg where
  role : Role
  text : List Char
deriving DecidableEq

/-- JavaScript String.prototype.endsWith. -/
def jsEndsWith (l suffix : List Char) : Bool := suffix.isSuffixOf l

/-- Acting on the reversed message list, replace the first user-role
message - the one the reversed find of handleLiveMessage locates - by the
accumulated user transcript, but only if its displayed text still carries
the in-progress trailing ellipsis. -/
def replaceFirstUser (userBuf : List Char) : List ChatMsg → List ChatMsg
  | [] => []
  | m :: rest =>
    if m.role = Role.user then
      (if jsEndsWith m.text ("...".toList) then { m with text := userBuf } else m) :: rest
    else
      m :: replaceFirstUser userBuf rest

/-- The turnComplete branch of handleLiveMessage: finalize the last user
message from the accumulated user-transcript buffer and reset both
accumulation buffers to the empty string.  Returns the new message list and
the two buffers. -/
def handleTurnComplete (msgs : List ChatMsg) (userBuf modelBuf : List Char) :
    List ChatMsg × List Char × List Char :=
  ((replaceFirstUser userBuf msgs.reverse).reverse, [], [])

/-- The text of the last user-role message of the transcript, as the
reversed find locates it. -/
def lastUserText (msgs : List ChatMsg) : Option (List Char) :=
  (msgs.reverse.find? (fun m => decide (m.role = Role.user))).map ChatMsg.text

/-- The timing invariant of the scheduler: the trace of source.start calls
is gapless-compatible (each start is at or after the previous start plus the
previous segment's duration) and the cursor sits at or after the end of the
last scheduled segment. -/
def schedOk (st : SchedState) : Prop :=
  List.Chain' (fun a b => a.1 + segDuration a.2 ≤ b.1) st.scheduled ∧
  ∀ x : ℚ × Seg, st.scheduled.getLast? = some x → x.1 + segDuration x.2 ≤ st.nextStartTime

theorem segDuration_nonneg (s : Seg) : 0 ≤ segDuration s := by
  unfold segDuration
  positivity

theorem le_bump (c t : ℚ) : c ≤ bump c t := by
  unfold bump
  split
  · linarith
  · exact le_refl c

theorem le_bump_t (c t : ℚ) : t ≤ bump c t := by
  by_cases h : c < t
  · simp only [bump, if_pos h]
    linarith
  · simp only [bump, if_neg h]
    exact not_lt.mp h

theorem schedStep_ok (isOpen : Bool) (t : ℚ) (item : Seg) (rest : List Seg) (st : SchedState)
    (h : schedOk st) : schedOk (schedStep isOpen t item rest st) := by
  obtain ⟨hchain, hlast⟩ := h
  constructor
  · show List.Chain' _ (st.scheduled ++ [(bump st.nextStartTime t, item)])
    rw [List.chain'_append]
    refine ⟨hchain, List.chain'_singleton _, ?_⟩
    intro x hx y hy
    simp only [List.head?, Option.mem_def, Option.some.injEq] at hy
    subst hy
    have hx' : st.scheduled.getLast? = some x := hx
    calc x.1 + segDuration x.2 ≤ st.nextStartTime := hlast x hx'
      _ ≤ bump st.nextStartTime t := le_bump _ _
  · intro x hx
    show x.1 + segDuration x.2 ≤ bump st.nextStartTime t + segDuration item
    have hx' : (st.scheduled ++ [(bump st.nextStartTime t, item)]).getLast? = some x := hx
    rw [List.getLast?_concat] at hx'
    cases hx'
    exact le_refl _

theorem passTail_ok (isOpen : Bool) :
    ∀ (queue : List Seg) (st : SchedState), schedOk st → schedOk (passTail isOpen queue st) := by
  intro queue
  induction queue with
  | nil => intro st h; exact h
  | cons item rest ih =>
    intro st h
    exact ih _ (schedStep_ok isOpen 0 item rest st h)

theorem passLoop_ok (isOpen : Bool) :
    ∀ (env : List (ℚ × List Seg)) (queue : List Seg) (st : SchedState),
      schedOk st → schedOk (passLoop isOpen env queue st) := by
  intro env
  induction env with
  | nil => intro queue st h; exact passTail_ok isOpen queue st h
  | cons e env ih =>
    intro queue st h
    obtain ⟨t, batch⟩ := e
    cases queue with
    | nil => exact h
    | cons item rest => exact ih _ _ (schedStep_ok isOpen t item (rest ++ batch) st h)

theorem passTail_drains (isOpen : Bool) :
    ∀ (queue : List Seg) (st : SchedState), st.audioQueue = queue →
      (passTail isOpen queue st).audioQueue = [] := by
  intro queue
  induction queue with
  | nil => intro st h; simpa [passTail] using h
  | cons item rest ih =>
    intro st h
    simp only [passTail]
    exact ih _ rfl

theorem passLoop_drains (isOpen : Bool) :
    ∀ (env : List (ℚ × List Seg)) (queue : List Seg) (st : SchedState), st.audioQueue = queue →
      (passLoop isOpen env queue st).audioQueue = [] := by
  intro env
  induction env with
  | nil => intro queue st h; exact passTail_drains isOpen queue st h
  | cons e env ih =>
    intro queue st h
    obtain ⟨t, batch⟩ := e
    cases queue with
    | nil => simpa [passLoop] using h
    | cons item rest =>
      simp only [passLoop]
      exact ih _ _ rfl

/-- C9 (amended): a call to the scheduling pass while another pass is in
flight is a no-op returning the playback queue, the cursor, the playing
marker and the flag unchanged; a running pass drains every segment that
arrives during it inside its own while loop (the queue is re-checked after
every await), so it completes with an empty queue and the end-of-pass
re-invocation, which is conditioned on the queue being non-empty, does not
fire: the queue is drained to empty before the scheduler yields. -/
theorem scheduleAudio_guard (isOpen : Bool) (env : List (ℚ × List Seg)) (st : SchedState) :
    scheduleAudio isOpen env st true = (st, true, false) ∧
    (scheduleAudio isOpen env st false).1.audioQueue = [] ∧
    (scheduleAudio isOpen env st false).2.2 = false := by
  have hd := passLoop_drains isOpen env st.audioQueue st rfl
  refine ⟨by simp [scheduleAudio], by simp [scheduleAudio, hd], ?_⟩
  simp [scheduleAudio, hd]

/-- C9 counterexample: a pass over a one-segment queue during which a second
segment arrives schedules both segments itself and does not re-invoke
(third component false), contradicting the claim that a completing pass
re-invokes itself exactly when new segments arrived during the pass. -/
theorem scheduleAudio_reinvoke_cx :
    (scheduleAudio true [(0, [Seg.mk [1, 1] none])]
        (SchedState.mk [Seg.mk [2, 2] none] 0 none none false []) false).2.2 = false ∧
    ((scheduleAudio true [(0, [Seg.mk [1, 1] none])]
        (SchedState.mk [Seg.mk [2, 2] none] 0 none none false []) false).1.scheduled.map
      Prod.snd) = [Seg.mk [2, 2] none, Seg.mk [1, 1] none] := by
  constructor <;>
    norm_num [scheduleAudio, passLoop, passTail, schedStep, bump, segDuration]

/-- C4 (amended): toggling audio output off while enabled stops the
in-flight source when one exists, empties the pending playback queue and
clears the currently-playing marker; but a segment produced by the
still-active live session after the toggle is appended to the queue and is
immediately scheduled by the pass handleLiveMessage triggers - the
output-enabled flag is consulted nowhere on the live-audio path, so the
segment plays even while output is disabled, rather than waiting for output
to be re-enabled. -/
theorem toggleAudio_mute (st : SchedState) (data : List ℕ) (isOpen : Bool) :
    (toggleAudio true st).1 = false ∧
    (toggleAudio true st).2.1.audioQueue = [] ∧
    (toggleAudio true st).2.1.currentlyPlayingIndex = none ∧
    (toggleAudio true st).2.2 = st.audioSource.isSome ∧
    (handleLiveAudioData isOpen [] data (toggleAudio true st).2.1 false).1.scheduled =
      st.scheduled ++ [(bump st.nextStartTime 0, Seg.mk data none)] := by
  refine ⟨rfl, rfl, rfl, rfl, ?_⟩
  simp [handleLiveAudioData, scheduleAudio, toggleAudio, passLoop, passTail, schedStep]

/-- C4 counterexample: output is toggled off while two segments are queued
and one is in flight; a live segment arriving afterwards is nonetheless
scheduled at once (its source.start call appears in the trace), refuting
that it is not scheduled for playback until output is re-enabled. -/
theorem toggleAudio_mute_cx :
    (handleLiveAudioData true [] [9, 9]
        (toggleAudio true
          (SchedState.mk [Seg.mk [1, 1] (some 1), Seg.mk [2, 2] (some 1)] 0 (some 1)
            (some (Seg.mk [3, 3] (some 1))) true [])).2.1 false).1.scheduled =
      [((0 : ℚ), Seg.mk [9, 9] none)] := by
  norm_num [handleLiveAudioData, scheduleAudio, toggleAudio, passLoop, passTail, schedStep, bump]

theorem processNextTts_eq (jobs : List TtsJob) (q : List Seg) :
    processNextTts jobs q = q ++ jobs.filterMap ttsResultSeg := by
  induction jobs generalizing q with
  | nil => simp [processNextTts]
  | cons j rest ih =>
    cases h : j.result with
    | none => simp [processNextTts, h, ih, ttsResultSeg]
    | some a => simp [processNextTts, h, ih, ttsResultSeg]

/-- C2: whatever order the synthesis promises resolve in, the segments the
drain loop appends to the playback queue are exactly the submitted jobs'
successful results in submission order: the drain output is the prior queue
followed by the in-order filterMap of the results (a failed or empty job
contributes nothing and blocks nothing), and the output depends only on
each job's result and message index, never on its resolve order. -/
theorem processNextTts_order (jobs : List TtsJob) (q : List Seg) :
    processNextTts jobs q = q ++ jobs.filterMap ttsResultSeg ∧
    ∀ jobs' : List TtsJob,
      jobs.map (fun j => (j.result, j.messageIndex)) =
        jobs'.map (fun j => (j.result, j.messageIndex)) →
      processNextTts jobs q = processNextTts jobs' q := by
  refine ⟨processNextTts_eq jobs q, ?_⟩
  intro jobs' hmap
  rw [processNextTts_eq, processNextTts_eq]
  have key : jobs.filterMap ttsResultSeg = jobs'.filterMap ttsResultSeg := by
    have h1 := congrArg
      (List.filterMap (fun p : Option (List ℕ) × ℕ => p.1.map (fun a => Seg.mk a (some p.2))))
      hmap
    simpa [List.filterMap_map, Function.comp, ttsResultSeg] using h1
  rw [key]

/-- C2 witness: jobs submitted in order J1, J2, J3 with resolve orders 3, 1, 2
and J2 failing yield exactly the segments of J1 then J3, and the same output
as the identical jobs with resolve orders 1, 2, 3. -/
theorem processNextTts_order_witness :
    processNextTts
        [TtsJob.mk 3 (some [1]) 0, TtsJob.mk 1 none 1, TtsJob.mk 2 (some [3]) 2] [] =
      [Seg.mk [1] (some 0), Seg.mk [3] (some 2)] ∧
    processNextTts
        [TtsJob.mk 3 (some [1]) 0, TtsJob.mk 1 none 1, TtsJob.mk 2 (some [3]) 2] [] =
      processNextTts
        [TtsJob.mk 1 (some [1]) 0, TtsJob.mk 2 none 1, TtsJob.mk 3 (some [3]) 2] [] :=
  ⟨by decide,
   (processNextTts_order [TtsJob.mk 3 (some [1]) 0, TtsJob.mk 1 none 1,
       TtsJob.mk 2 (some [3]) 2] []).2
     [TtsJob.mk 1 (some [1]) 0, TtsJob.mk 2 none 1, TtsJob.mk 3 (some [3]) 2] (by decide)⟩

/-- C10: while a live voice session is active or audio output is disabled,
streamed chunks never create TTS jobs - the submission gate requires both
audio enabled and no live session - and a submission whose text is empty or
whitespace-only creates no job and leaves the TTS queue unchanged. -/
theorem ttsSubmissionGate (isAudioEnabled isLiveSessionActive : Bool) (messagesLen : ℕ)
    (chunks : List (List Char)) (acc : List Char × List (List Char × ℕ)) :
    (isLiveSessionActive = true ∨ isAudioEnabled = false →
      (handleStreamChunks isAudioEnabled isLiveSessionActive messagesLen chunks acc).2 = acc.2) ∧
    (∀ (text : List Char) (i : ℕ) (q : List (List Char × ℕ)),
      jsTrim text = [] → processTtsQueue text i q = q) := by
  constructor
  · intro h
    induction chunks generalizing acc with
    | nil => simp [handleStreamChunks]
    | cons c rest ih =>
      obtain ⟨ft, q⟩ := acc
      have hgate : (isAudioEnabled && !isLiveSessionActive) = false := by
        rcases h with h | h <;> simp [h]
      by_cases hc : c = []
      · simpa [handleStreamChunks, hc] using ih (ft, q)
      · simpa [handleStreamChunks, hc, hgate] using ih (ft ++ c, q)
  · intro text i q h
    simp [processTtsQueue, h]

/-- C10 witness: a long punctuated chunk streamed while a live session is
active creates no job, and a whitespace-only submission leaves the queue
unchanged. -/
theorem ttsSubmissionGate_witness :
    (handleStreamChunks true true 0 ["Hello, world!!!".toList] ([], [])).2 = [] ∧
    processTtsQueue "   ".toList 0 [] = [] :=
  ⟨(ttsSubmissionGate true true 0 ["Hello, world!!!".toList] ([], [])).1 (Or.inl rfl),
   (ttsSubmissionGate true true 0 [] ([], [])).2 ("   ".toList) 0 [] (by decide)⟩

/-- C5 counterexample: for the streamed chunks "Xin", "chào!", "bạn" the
single TTS job submitted carries the text of the triggering chunk alone,
"chào!", which is neither the claimed accumulated text "Xin chào!" nor the
text actually accumulated up to the flush point, "Xinchào!". -/
theorem handleSendMessage_flush_cx :
    (handleStreamChunks true false 2 ["Xin".toList, "chào!".toList, "bạn".toList] ([], [])).2 =
      [("chào!".toList, 2)] ∧
    "chào!".toList ≠ "Xin chào!".toList ∧
    "chào!".toList ≠ ("Xin".toList ++ "chào!".toList) := by
  refine ⟨by decide, by decide, by decide⟩

/-- C5 (amended): for the streamed chunks "Xin" (3 characters, no
punctuation), "chào!" (contains sentence-ending punctuation), "bạn" (3
characters, no punctuation), exactly one TTS job is created, triggered by
chunk 2, and the text submitted for synthesis is that triggering chunk's
text alone, while the full text accumulates all three chunks. -/
theorem handleSendMessage_flush :
    handleStreamChunks true false 2 ["Xin".toList, "chào!".toList, "bạn".toList] ([], []) =
      ("Xin".toList ++ "chào!".toList ++ "bạn".toList, [("chào!".toList, 2)]) := by
  decide

/-- C7: a transport error while the session is Active with the microphone
stream, worklet and input audio context held makes the state Idle and arms
the 5000 ms self-clearing error message, but releases none of the held
resources - contrast stopLiveSession, the only code path that does. -/
theorem onLiveError_state :
    onLiveError (LiveState.mk true none none true true true true) =
      LiveState.mk false (some ("Lỗi kết nối máy chủ. Vui lòng thử lại sau.".toList))
        (some 5000) true true true true ∧
    clearLiveError (onLiveError (LiveState.mk true none none true true true true)) =
      LiveState.mk false none none true true true true ∧
    stopLiveSession (LiveState.mk true none none true true true true) =
      LiveState.mk false none none false false false false :=
  ⟨rfl, rfl, rfl⟩

/-- C1: over any run of the scheduling loop - any queue, any segments
arriving mid-pass, any device clock readings - the trace of source.start
calls satisfies: each start time is at least the previous start time plus
the previous segment's duration (hence start times are non-decreasing,
since durations are non-negative); the cursor is bumped to the device time
plus 50 ms exactly when it has fallen behind the device clock and is left
alone otherwise, so each start time equals the maximum of the device time
and the (bumped) cursor; and each iteration starts the segment at the
bumped cursor and advances the cursor by exactly the decoded duration. -/
theorem scheduleAudio_timing (isOpen : Bool) (env : List (ℚ × List Seg)) (queue : List Seg)
    (c : ℚ) (marker : Option ℕ) (src : Option Seg) (playing : Bool) :
    List.Chain' (fun a b => a.1 + segDuration a.2 ≤ b.1)
      (passLoop isOpen env queue (SchedState.mk queue c marker src playing [])).scheduled ∧
    List.Chain' (fun a b => a ≤ b)
      ((passLoop isOpen env queue (SchedState.mk queue c marker src playing [])).scheduled.map
        Prod.fst) ∧
    (∀ c1 t : ℚ, (c1 < t → bump c1 t = t + 1/20) ∧ (t ≤ c1 → bump c1 t = c1) ∧
      bump c1 t = max t (bump c1 t)) ∧
    (∀ (t : ℚ) (item : Seg) (rest : List Seg) (st1 : SchedState),
      (schedStep isOpen t item rest st1).scheduled =
        st1.scheduled ++ [(bump st1.nextStartTime t, item)] ∧
      (schedStep isOpen t item rest st1).nextStartTime =
        bump st1.nextStartTime t + segDuration item) := by
  have h0 : schedOk (SchedState.mk queue c marker src playing []) := by
    constructor
    · exact List.chain'_nil
    · intro x hx
      simp at hx
  obtain ⟨hchain, _⟩ := passLoop_ok isOpen env queue _ h0
  refine ⟨hchain, ?_, ?_, ?_⟩
  · rw [List.chain'_map]
    refine hchain.imp ?_
    intro a b hab
    have := segDuration_nonneg a.2
    linarith
  · intro c1 t
    refine ⟨fun h1 => by simp [bump, h1], fun h1 => by simp [bump, not_lt.mpr h1], ?_⟩
    exact (max_eq_right (le_bump_t c1 t)).symm
  · intro t item rest st1
    exact ⟨rfl, rfl⟩

/-- C1 witness: a concrete two-segment run in which the cursor starts behind
the device clock - start times are 21/20 (bumped: device time 1 plus 50 ms)
and 21/20 + 1/12000 (the previous start plus the 4-byte segment's duration),
and the trace satisfies the gapless chain property. -/
theorem scheduleAudio_timing_witness :
    ((passLoop true [(1, [Seg.mk [0, 0] none])] [Seg.mk [0, 0, 0, 0] (some 0)]
        (SchedState.mk [Seg.mk [0, 0, 0, 0] (some 0)] 0 none none false [])).scheduled.map
      Prod.fst) = [21/20, 21/20 + 1/12000] ∧
    List.Chain' (fun a b => a.1 + segDuration a.2 ≤ b.1)
      (passLoop true [(1, [Seg.mk [0, 0] none])] [Seg.mk [0, 0, 0, 0] (some 0)]
        (SchedState.mk [Seg.mk [0, 0, 0, 0] (some 0)] 0 none none false [])).scheduled :=
  ⟨by norm_num [passLoop, passTail, schedStep, bump, segDuration],
   (scheduleAudio_timing true [(1, [Seg.mk [0, 0] none])] [Seg.mk [0, 0, 0, 0] (some 0)]
     0 none none false).1⟩

theorem int16Words_length : ∀ data : List ℕ, (int16Words data).length = data.length / 2
  | [] => by simp [int16Words]
  | [b] => by simp [int16Words]
  | b0 :: b1 :: rest => by
    simp [int16Words, int16Words_length rest]
    omega

theorem int16Words_getD : ∀ (data : List ℕ) (i : ℕ), i < data.length / 2 →
    (int16Words data).getD i 0 = int16FromBytes (data.getD (2 * i) 0) (data.getD (2 * i + 1) 0)
  | [], i, h => by
    simp only [List.length_nil] at h
    omega
  | [b], i, h => by
    simp only [List.length_singleton] at h
    omega
  | b0 :: b1 :: rest, 0, h => by simp [int16Words]
  | b0 :: b1 :: rest, i + 1, h => by
    have h2 : i < rest.length / 2 := by
      simp at h
      omega
    have e1 : 2 * (i + 1) = 2 * i + 1 + 1 := by ring
    have e2 : 2 * (i + 1) + 1 = 2 * i + 1 + 1 + 1 := by ring
    simp only [int16Words, List.getD_cons_succ, e1, e2]
    exact int16Words_getD rest i h2

theorem getD_map_of_lt {α β : Type} (f : α → β) (d1 : α) (d2 : β) :
    ∀ (l : List α) (i : ℕ), i < l.length → (l.map f).getD i d2 = f (l.getD i d1)
  | a :: l, 0, _ => by simp
  | a :: l, i + 1, h => by
    simp only [List.map_cons, List.getD_cons_succ]
    exact getD_map_of_lt f d1 d2 l i (by simpa using h)
  | [], i, h => by simp at h

theorem decodeSamples_length (data : List ℕ) : (decodeSamples data).length = data.length / 2 := by
  simp [decodeSamples, int16Words_length]

theorem decodeAudioData_none_iff (data : List ℕ) (n : ℕ) :
    decodeAudioData data n = none ↔ (decodeSamples data).length / n = 0 := by
  simp only [decodeAudioData]
  split
  · next hb => simpa using hb
  · next hb =>
    split
    · simpa using hb
    · simpa using hb

/-- C6 (amended): the decoder raises no DecodeError for misaligned byte
lengths - a byte length that is not a multiple of 2 × channels is truncated
instead: the word count is the byte length divided by 2 rounded down (a
trailing odd byte is ignored), each channel buffer holds that count divided
by the channel count rounded down, and each word is read little-endian and
normalized by division by 32768.  The one failure path is the zero-frame
case: with fewer than 2 × channels bytes the truncated frame count is 0 and
createBuffer throws NotSupportedError - still not a DecodeError, and not
conditioned on divisibility.  (Channel counts are considered within the
spec-guaranteed range up to 32; the code itself always passes 1.) -/
theorem decodeAudioData_truncates (data : List ℕ) :
    (2 ≤ data.length → decodeAudioData data 1 = some [decodeSamples data]) ∧
    (data.length < 2 → decodeAudioData data 1 = none) ∧
    (decodeSamples data).length = data.length / 2 ∧
    (∀ i : ℕ, i < data.length / 2 →
      (decodeSamples data).getD i 0 =
        (int16FromBytes (data.getD (2 * i) 0) (data.getD (2 * i + 1) 0) : ℚ) / 32768) ∧
    (∀ numChannels : ℕ, 0 < numChannels → numChannels ≤ 32 →
      (decodeAudioData data numChannels = none ↔ data.length / 2 / numChannels = 0) ∧
      (∀ out : List (List ℚ), decodeAudioData data numChannels = some out →
        out.length = numChannels ∧ ∀ l ∈ out, l.length = data.length / 2 / numChannels)) := by
  have hlen := decodeSamples_length data
  refine ⟨?_, ?_, hlen, ?_, ?_⟩
  · intro h
    have h0 : ¬ (decodeSamples data).length = 0 := by
      rw [hlen]
      omega
    simp [decodeAudioData, h0]
  · intro h
    have h0 : (decodeSamples data).length / 1 = 0 := by
      rw [Nat.div_one, hlen]
      omega
    simp only [decodeAudioData, if_pos h0]
  · intro i hi
    have hi' : i < (int16Words data).length := by
      rw [int16Words_length]
      exact hi
    unfold decodeSamples
    rw [getD_map_of_lt _ 0 _ _ i hi', int16Words_getD data i hi]
  · intro numChannels hn _
    refine ⟨by rw [decodeAudioData_none_iff, hlen], ?_⟩
    intro out hout
    simp only [decodeAudioData] at hout
    split at hout
    · exact Option.noConfusion hout
    · split at hout
      · next h1 =>
        subst h1
        rw [Option.some.injEq] at hout
        subst hout
        refine ⟨rfl, ?_⟩
        intro l hl
        rw [List.mem_singleton] at hl
        subst hl
        simp [hlen]
      · rw [Option.some.injEq] at hout
        subst hout
        constructor
        · simp
        · intro l hl
          simp only [List.mem_map, List.mem_range] at hl
          obtain ⟨ch, _, rfl⟩ := hl
          simp [hlen]

/-- C6 witness: a 6-byte mono input decodes successfully into the full
3-word sample buffer. -/
theorem decodeAudioData_truncates_witness :
    2 ≤ ([1, 2, 3, 4, 5, 6] : List ℕ).length ∧
    decodeAudioData [1, 2, 3, 4, 5, 6] 1 = some [decodeSamples [1, 2, 3, 4, 5, 6]] :=
  ⟨by decide, (decodeAudioData_truncates [1, 2, 3, 4, 5, 6]).1 (by decide)⟩

/-- C6 counterexample: a 3-byte mono input - byte length not a multiple of
2 × channels - does not fail with a DecodeError: the decoder succeeds,
returning exactly what it returns for the first 2 bytes, the trailing byte
silently dropped.  Conversely an empty input - byte length 0, a multiple of
2 - does not succeed: the zero frame count makes createBuffer throw. -/
theorem decodeAudioData_cx :
    decodeAudioData [1, 2, 3] 1 = decodeAudioData [1, 2] 1 ∧
    decodeAudioData [1, 2, 3] 1 = some [[(513 : ℚ) / 32768]] ∧
    3 % 2 ≠ 0 ∧
    decodeAudioData [] 1 = none ∧
    0 % 2 = 0 := by
  refine ⟨?_, ?_, by decide, ?_, by decide⟩ <;>
    norm_num [decodeAudioData, decodeSamples, int16Words, int16FromBytes]

theorem clampSample_mem (x : ℚ) : -1 ≤ clampSample x ∧ clampSample x ≤ 1 := by
  unfold clampSample
  exact ⟨le_max_left _ _, max_le (by norm_num) (min_le_left _ _)⟩

theorem pcmEncodeInt16_range (x : ℚ) :
    -32768 ≤ pcmEncodeInt16 x ∧ pcmEncodeInt16 x ≤ 32767 := by
  obtain ⟨h1, h2⟩ := clampSample_mem x
  unfold pcmEncodeInt16
  by_cases hneg : clampSample x < 0
  · rw [if_pos hneg]
    constructor
    · have hle : ((-32768 : ℤ) : ℚ) ≤ clampSample x * 32768 := by
        push_cast
        nlinarith
      have := Int.ceil_mono hle
      rwa [Int.ceil_intCast] at this
    · have hle : clampSample x * 32768 ≤ ((0 : ℤ) : ℚ) := by
        push_cast
        nlinarith
      have h0 : ⌈clampSample x * 32768⌉ ≤ 0 := Int.ceil_le.mpr hle
      omega
  · rw [if_neg hneg]
    push_neg at hneg
    constructor
    · have h0 : (0 : ℤ) ≤ ⌊clampSample x * 32767⌋ := Int.le_floor.mpr (by push_cast; nlinarith)
      omega
    · have hle : clampSample x * 32767 ≤ ((32767 : ℤ) : ℚ) := by
        push_cast
        nlinarith
      have := Int.floor_mono hle
      rwa [Int.floor_intCast] at this

theorem int16_bytes_roundtrip (v : ℤ) (h1 : -32768 ≤ v) (h2 : v ≤ 32767) :
    int16FromBytes ((v % 65536).toNat % 256) ((v % 65536).toNat / 256) = v := by
  simp only [int16FromBytes]
  split <;> omega

theorem decodeSamples_createPcmBlob (xs : List ℚ) :
    decodeSamples (createPcmBlob xs) =
      xs.map (fun x => ((pcmEncodeInt16 x : ℤ) : ℚ) / 32768) := by
  induction xs with
  | nil => simp [decodeSamples, createPcmBlob, int16Words]
  | cons x xs ih =>
    obtain ⟨hr1, hr2⟩ := pcmEncodeInt16_range x
    simp only [createPcmBlob, List.map_cons, List.flatMap_cons, int16ToBytesLE] at ih ⊢
    simp only [List.cons_append, List.append_eq, List.nil_append, decodeSamples, int16Words,
      int16_bytes_roundtrip _ hr1 hr2, List.map_cons] at ih ⊢
    rw [ih]

theorem pcm_quant_bound (x : ℚ) :
    |((pcmEncodeInt16 x : ℤ) : ℚ) / 32768 - clampSample x| ≤ 1 / 16384 := by
  obtain ⟨h1, h2⟩ := clampSample_mem x
  unfold pcmEncodeInt16
  by_cases hneg : clampSample x < 0
  · rw [if_pos hneg]
    have hc1 : clampSample x * 32768 ≤ ((⌈clampSample x * 32768⌉ : ℤ) : ℚ) := Int.le_ceil _
    have hc2 : ((⌈clampSample x * 32768⌉ : ℤ) : ℚ) < clampSample x * 32768 + 1 :=
      Int.ceil_lt_add_one _
    rw [abs_le]
    constructor <;> linarith
  · rw [if_neg hneg]
    push_neg at hneg
    have hf1 : ((⌊clampSample x * 32767⌋ : ℤ) : ℚ) ≤ clampSample x * 32767 := Int.floor_le _
    have hf2 : clampSample x * 32767 < ⌊clampSample x * 32767⌋ + 1 := Int.lt_floor_add_one _
    rw [abs_le]
    constructor <;> linarith

/-- C3 (amended): the round-trip error per element is bounded by 2/32768 =
1/16384, not by 1/32768: for a non-negative sample s the encoder scales by
32767 but the decoder divides by 32768, adding up to s/32768 of skew on top
of the truncation error. -/
theorem pcm_roundtrip_bound (xs : List ℚ) (i : ℕ) (h : i < xs.length) :
    (decodeSamples (createPcmBlob xs)).length = xs.length ∧
    |(decodeSamples (createPcmBlob xs)).getD i 0 - clampSample (xs.getD i 0)| ≤ 1 / 16384 := by
  constructor
  · rw [decodeSamples_createPcmBlob]
    simp
  · rw [decodeSamples_createPcmBlob, getD_map_of_lt _ 0 _ xs i h]
    exact pcm_quant_bound _

/-- C3 witness: the bound holds at the sample 1/2. -/
theorem pcm_roundtrip_bound_witness :
    (0 : ℕ) < [(1 : ℚ) / 2].length ∧
    |(decodeSamples (createPcmBlob [(1 : ℚ) / 2])).getD 0 0 -
        clampSample ([(1 : ℚ) / 2].getD 0 0)| ≤ 1 / 16384 :=
  ⟨by simp, (pcm_roundtrip_bound [(1 : ℚ) / 2] 0 (by simp)).2⟩

/-- C3 counterexample: at the float32-representable sample 131069/131072
(for which every float operation the encoder performs is exact) the
round-trip error is 5/131072, strictly greater than the claimed bound
1/32768 = 4/131072. -/
theorem pcm_roundtrip_cx :
    ¬ |(decodeSamples (createPcmBlob [(131069 : ℚ) / 131072])).getD 0 0 -
        clampSample ((131069 : ℚ) / 131072)| ≤ 1 / 32768 := by
  have hcl : clampSample ((131069 : ℚ) / 131072) = (131069 : ℚ) / 131072 := by
    unfold clampSample
    rw [min_eq_right (by norm_num), max_eq_right (by norm_num)]
  have henc : pcmEncodeInt16 ((131069 : ℚ) / 131072) = 32766 := by
    unfold pcmEncodeInt16
    rw [hcl, if_neg (by norm_num)]
    rw [Int.floor_eq_iff]
    constructor <;> norm_num
  rw [decodeSamples_createPcmBlob]
  simp only [List.map_cons, List.map_nil, List.getD_cons_zero, henc, hcl]
  rw [abs_le]
  intro hcon
  have h1 := hcon.1
  push_cast at h1
  norm_num at h1

theorem replaceFirstUser_find (ubuf s : List Char) :
    ∀ l : List ChatMsg,
      (l.find? (fun m => decide (m.role = Role.user))).map ChatMsg.text = some s →
      jsEndsWith s ("...".toList) = true →
      ((replaceFirstUser ubuf l).find? (fun m => decide (m.role = Role.user))).map ChatMsg.text =
        some ubuf := by
  intro l
  induction l with
  | nil =>
    intro h _
    rw [List.find?_nil] at h
    exact Option.noConfusion h
  | cons m rest ih =>
    intro hfind hends
    by_cases hrole : m.role = Role.user
    · rw [List.find?_cons_of_pos _ (by simp [hrole])] at hfind
      simp only [Option.map_some', Option.some.injEq] at hfind
      subst hfind
      simp only [replaceFirstUser, if_pos hrole, if_pos hends]
      rw [List.find?_cons_of_pos _ (by simp [hrole])]
      rfl
    · rw [List.find?_cons_of_neg _ (by simp [hrole])] at hfind
      simp only [replaceFirstUser, if_neg hrole]
      rw [List.find?_cons_of_neg _ (by simp [hrole])]
      exact ih hfind hends

/-- C8: when a turn-complete signal arrives while the last user message
still carries the trailing ellipsis, the finalized user transcript equals
the accumulated user-transcript buffer, and both accumulation buffers are
reset to empty for the next turn. -/
theorem handleTurnComplete_finalize (msgs : List ChatMsg) (userBuf modelBuf s : List Char)
    (h1 : lastUserText msgs = some s) (h2 : jsEndsWith s ("...".toList) = true) :
    lastUserText (handleTurnComplete msgs userBuf modelBuf).1 = some userBuf ∧
    (handleTurnComplete msgs userBuf modelBuf).2.1 = [] ∧
    (handleTurnComplete msgs userBuf modelBuf).2.2 = [] := by
  refine ⟨?_, rfl, rfl⟩
  unfold handleTurnComplete lastUserText
  rw [List.reverse_reverse]
  unfold lastUserText at h1
  exact replaceFirstUser_find userBuf s msgs.reverse h1 h2

/-- C8 witness: the spec scenario - displayed user message "toi dang...",
accumulated buffer "toi dang o dau" - finalizes to "toi dang o dau". -/
theorem handleTurnComplete_finalize_witness :
    lastUserText
        [ChatMsg.mk Role.model ("Chào bạn".toList), ChatMsg.mk Role.user ("toi dang...".toList)] =
      some ("toi dang...".toList) ∧
    jsEndsWith ("toi dang...".toList) ("...".toList) = true ∧
    lastUserText (handleTurnComplete
        [ChatMsg.mk Role.model ("Chào bạn".toList), ChatMsg.mk Role.user ("toi dang...".toList)]
        ("toi dang o dau".toList) ("x".toList)).1 = some ("toi dang o dau".toList) :=
  ⟨by decide, by decide,
   (handleTurnComplete_finalize
     [ChatMsg.mk Role.model ("Chào bạn".toList), ChatMsg.mk Role.user ("toi dang...".toList)]
     ("toi dang o dau".toList) ("x".toList) ("toi dang...".toList) (by decide) (by decide)).1⟩

end QuangTriVR
